import Mathlib

/-!
Verification development for the ncc-zip command line tool (src/cli.js).

The JavaScript source is shallowly embedded: each pure computation of the
CLI becomes a Lean function, stateful event handling becomes explicit state
passing, and the fallible config resolver returns an explicit result type.
External collaborators (the bundler, the archiver sink, the glob matcher,
the argument parser, the filesystem) are modelled as explicit inputs or as
small faithful models of their documented behaviour, mirroring how the
specification delimits them.

Numeric conventions: JavaScript numbers that hold byte counts and permission
bits are modelled as Nat (no overflow is reachable for the quantities
involved); kilobyte rounding Math.round(n / 1024) on a nonnegative integer
n equals (n + 512) / 1024 in integer division.
-/

namespace NccZip

/-- Path concatenation as performed by the template literals in cli.js
(for example the literal joining outDir, a slash and the asset name). -/
def joinPath (dir file : String) : String := dir ++ "/" ++ file

/-- Math.round(bytes / 1024) for a nonnegative integer byte count:
round-half-up, i.e. floor((bytes + 512) / 1024). -/
def kbRound (bytes : Nat) : Nat := (bytes + 512) / 1024

/-- The source of an asset in a build result: either a Buffer (byte list)
or a string (measured in UTF-8 bytes), matching the two cases accepted by
the expression assetSource.byteLength || Buffer.byteLength(assetSource, "utf8")
in renderSummary (cli.js line 113). -/
inductive AssetSource where
  | buf (bytes : List Nat)
  | str (s : String)
deriving Repr, DecidableEq

/-- Byte length of an asset source; for a Buffer its byteLength, for a
string its UTF-8 byte length. -/
def AssetSource.byteLength : AssetSource → Nat
  | .buf bs => bs.length
  | .str s => s.utf8ByteSize

/-- One asset of a build result: byte content plus recorded permission
bits (assets[asset].permissions may be absent, hence Option). -/
structure Asset where
  source : AssetSource
  permissions : Option Nat
deriving Repr, DecidableEq

/-- The build result handed by the bundler collaborator to the handler in
cli.js (fields err and stats are not needed by the archive phase modelled
here; err short-circuits the handler before it and stats is only serialized
afterwards). Object key iteration order is insertion order, so the assets
and symlinks mappings are association lists. -/
structure BuildResult where
  code : String
  map : Option String
  assets : List (String × Asset)
  symlinks : List (String × String)
deriving Repr, DecidableEq

/-! ## Summary renderer (cli.js lines 103-161)

The renderer is modelled as producing the ordered list of size-report rows
plus the total printed on the final line.  Column padding and the outDir
label prefix are pure string formatting and carry no size or ordering
information; the row sequence and the totals mirror lines 105-158. -/

/-- One row of the summary output: the main code row, the source-map row,
or an asset row. -/
inductive Row where
  | indexRow (size : Nat)
  | mapRow (size : Nat)
  | assetRow (name : String) (size : Nat)
deriving Repr, DecidableEq

/-- The kilobyte size printed at the start of a row. -/
def Row.size : Row → Nat
  | .indexRow s => s
  | .mapRow s => s
  | .assetRow _ s => s

/-- The (name, size) pair of an asset row, none for the code and map rows. -/
def Row.assetEntry? : Row → Option (String × Nat)
  | .assetRow a s => some (a, s)
  | _ => none

/-- codeSize in renderSummary: Math.round(Buffer.byteLength(code, "utf8") / 1024). -/
def codeSizeOf (code : String) : Nat := kbRound code.utf8ByteSize

/-- mapSize in renderSummary: the rounded kilobyte size when a map is
present, otherwise 0. -/
def mapSizeOf : Option String → Nat
  | some m => kbRound m.utf8ByteSize
  | none => 0

/-- assetSizes in renderSummary: each asset keyed to its rounded kilobyte size. -/
def assetSizesOf (assets : List (String × Asset)) : List (String × Nat) :=
  assets.map (fun e => (e.1, kbRound e.2.source.byteLength))

/-- The comparison used to order assets: ascending by rounded size
(the comparator at cli.js lines 119-121 returns 1 exactly when the first
size exceeds the second, so the sorted result is nondecreasing by size;
the order among equal sizes is irrelevant to every property stated here). -/
def bySize (a b : String × Nat) : Prop := a.2 ≤ b.2

instance : DecidableRel bySize := fun a b => Nat.decLe a.2 b.2

instance : IsTotal (String × Nat) bySize := ⟨fun a b => Nat.le_total a.2 b.2⟩

instance : IsTrans (String × Nat) bySize := ⟨fun _ _ _ h h2 => Nat.le_trans h h2⟩

/-- The row-emission loop of renderSummary (cli.js lines 134-156).  The two
Booleans track whether indexRender and indexMapRender are still pending
(non-null / non-empty).  Per asset, the code row is emitted first when
codeSize < assetSize and it is still pending; the map row is emitted when
mapSize is nonzero (the bare truthiness test mapSize on line 143) and
mapSize < assetSize and it is still pending; then the asset row.  After the
loop the still-pending code row and then the still-pending map row are
appended (lines 152-156). -/
def summaryLoop (cs ms : Nat) : List (String × Nat) → Bool → Bool → List Row
  | [], ip, mp =>
    (if ip then [Row.indexRow cs] else []) ++ (if mp then [Row.mapRow ms] else [])
  | (a, s) :: rest, ip, mp =>
    (if ip && decide (cs < s) then [Row.indexRow cs] else []) ++
    (if mp && (decide (ms ≠ 0) && decide (ms < s)) then [Row.mapRow ms] else []) ++
    (Row.assetRow a s ::
      summaryLoop cs ms rest (ip && !decide (cs < s))
        (mp && !(decide (ms ≠ 0) && decide (ms < s))))

/-- The result of the summary renderer: the ordered rows and the total
reported on the final line. -/
structure Summary where
  rows : List Row
  total : Nat
deriving Repr, DecidableEq

/-- renderSummary (cli.js lines 103-161), restricted to its size content:
totalSize is codeSize plus the asset sizes (line 108 and the loop at lines
110-118; mapSize is computed on line 106 but never added to totalSize),
assets are sorted ascending by rounded size, and the rows are produced by
the emission loop.  The initial pending flags are true for the code row and
map-presence for the map row (indexMapRender is the empty string, hence
falsy, exactly when map is absent). -/
def renderSummary (code : String) (map : Option String)
    (assets : List (String × Asset)) : Summary :=
  let cs := codeSizeOf code
  let ms := mapSizeOf map
  let sizes := assetSizesOf assets
  { rows := summaryLoop cs ms (List.insertionSort bySize sizes) true map.isSome
    total := cs + (sizes.map Prod.snd).sum }

/-! ## Config resolver (cli.js lines 62-101) -/

/-- What lookupConfig finds at a path: the file is missing (existsSync
false, lookupConfig returns null), present but unparsable (require throws,
lookupConfig returns false), or parsed to a value. -/
inductive Lookup (α : Type) where
  | missing
  | parseError
  | found (v : α)
deriving Repr, DecidableEq

/-- A parsed ncc configuration value.  truthy records the JavaScript
truthiness of the parsed value (a JSON file may parse to null, false, 0 or
an empty string, all falsy); the quiet and license fields are the two
options the CLI later overrides. -/
structure NccConfig where
  truthy : Bool
  quiet : Option Bool
  license : Option String
deriving Repr, DecidableEq

/-- The empty mapping returned when no config source applies; an empty
object is truthy in JavaScript. -/
def emptyConfig : NccConfig := { truthy := true, quiet := none, license := none }

/-- A parsed package.json: its own truthiness and its optional ncc field. -/
structure PkgJson where
  truthy : Bool
  ncc : Option NccConfig
deriving Repr, DecidableEq

/-- The filesystem as seen by getConfig: the state of the file at the
explicitly given path (when one is given), of ncc.config.json in the
working directory, and of package.json in the working directory. -/
structure ConfigEnv where
  explicitFile : Lookup NccConfig
  nccConfigJson : Lookup NccConfig
  packageJson : Lookup PkgJson
deriving Repr, DecidableEq

/-- Outcome of getConfig: a returned config, the thrown could-not-find
error, or the thrown parse error (cli.js lines 79-84). -/
inductive ConfigResult where
  | ok (c : NccConfig)
  | notFoundError
  | parseErrorE
deriving Repr, DecidableEq

/-- The package.json fallback of getConfig (cli.js lines 95-100):
if (packageJson && packageJson.ncc) return packageJson.ncc; return {}.
A missing or unparsable package.json is falsy (null / false), and a falsy
ncc field also fails the guard. -/
def checkPkg (env : ConfigEnv) : ConfigResult :=
  match env.packageJson with
  | .found pj =>
    if pj.truthy then
      match pj.ncc with
      | some n => if n.truthy then .ok n else .ok emptyConfig
      | none => .ok emptyConfig
    else .ok emptyConfig
  | _ => .ok emptyConfig

/-- getConfig (cli.js lines 62-101).  With an explicit path: null from
lookupConfig throws could-not-find, false throws the parse error, anything
parsed is returned without a truthiness test.  Without one: a discovered
ncc.config.json is returned only if truthy — note that both a missing file
(null) and an unparsable one (false) are falsy and fall through silently to
the package.json lookup. -/
def getConfig (env : ConfigEnv) (configPath : Option String) : ConfigResult :=
  match configPath with
  | some _ =>
    match env.explicitFile with
    | .missing => .notFoundError
    | .parseError => .parseErrorE
    | .found c => .ok c
  | none =>
    match env.nccConfigJson with
    | .found c => if c.truthy then .ok c else checkPkg env
    | _ => checkPkg env

/-- True exactly for the thrown parse error. -/
def ConfigResult.isParseErr : ConfigResult → Bool
  | .parseErrorE => true
  | _ => false

/-! ## Cache subcommands (cli.js lines 211-233)

The cache directory state is Option Nat: none when the directory does not
exist (get-folder-size fails with ENOENT, rimraf removes nothing), some
size when it exists with that recursive byte size. -/

/-- Number.prototype.toFixed(2) applied to size / 1024 / 1024, in ideal
(rational) arithmetic: the value rounded half-up to hundredths, rendered
with exactly two decimals.  Binary floating-point rounding of toFixed can
differ on adversarial sizes; no claim here depends on this branch. -/
def formatMB (size : Nat) : String :=
  let hundredths := (size * 100 + 524288) / 1048576
  let frac := hundredths % 100
  toString (hundredths / 100) ++ "." ++
    (if frac < 10 then "0" ++ toString frac else toString frac)

/-- The output of the cache size subcommand (cli.js lines 219-229): on
ENOENT the literal "0MB" plus newline, otherwise the megabyte size with
two decimals. -/
def cacheSizeOutput : Option Nat → String
  | none => "0MB\n"
  | some size => formatMB size ++ "MB\n"

/-- The cache clean subcommand (cli.js line 214): rimraf.sync removes the
directory if present and is a no-op on a missing path; it does not throw
in either case, so the result is always ok. -/
def cacheClean (_state : Option Nat) : Except String (Option Nat) :=
  .ok none

/-! ## Archive assembler: the archive phase of handler (cli.js lines 283-331)

The archiver sink is modelled as the ordered trace of operations submitted
to it; the two writeFileSync call sites (the source map on line 304 and the
license asset on line 309) become the side-file fields.  Glob matching
(minimatch) is an external collaborator and is passed in as a function from
asset name and pattern to Bool. -/

/-- One operation submitted to the archiver: the single append of the main
code entry (line 299), an asset append (line 319) or a symlink registration
(line 327). -/
inductive ArchiveOp where
  | appendCode (name : String) (mode : Nat)
  | appendAsset (name : String) (source : AssetSource) (mode : Option Nat)
  | symlinkOp (link : String) (target : String)
deriving Repr, DecidableEq

/-- True for the main code append. -/
def ArchiveOp.isCode : ArchiveOp → Bool
  | .appendCode _ _ => true
  | _ => false

/-- The CLI-derived inputs the handler closure reads: the values of the
schema flags it uses, the run flag, the outDir value at handler entry
(the run workspace path in run mode, the value of --out in build mode) and
the working directory. -/
structure HandlerArgs where
  filenameArg : Option String
  licenseArg : Option String
  ignoreArg : Option (List String)
  outArg : Option String
  run : Bool
  cwd : String
  compressionArg : Option Nat
deriving Repr, DecidableEq

/-- outFileName (cli.js line 202): args["--filename"] || "index"; the
JavaScript or-default also replaces an empty string. -/
def outFileNameOf : Option String → String
  | some s => if s = "" then "index" else s
  | none => "index"

/-- JavaScript String.prototype.endsWith, computed on the character
lists (String.endsWith of the Lean core library does not reduce inside
the kernel). -/
def endsWithStr (s suffix : String) : Bool := suffix.data.isSuffixOf s.data

/-- ext (cli.js line 260): ".cjs" when the resolved build file ends with
".cjs", else ".js". -/
def extOf (buildFile : String) : String :=
  if endsWithStr buildFile ".cjs" then ".cjs" else ".js"

/-- Modelled from the spec: the shebang test of ./utils/shebang (required
on cli.js line 4 but not part of the sources provided).  Per the spec, the
permission bits are 0o777 when "the code begins with an interpreter
directive line (`#!...`)". -/
def hasShebang (code : String) : Bool := code.startsWith "#!"

/-- The zlib level (cli.js line 284): args["--compression"] || 5, where a
0 value is falsy and also yields 5. -/
def compressionLevel : Option Nat → Nat
  | some n => if n = 0 then 5 else n
  | none => 5

/-- The literal archive-admission condition of cli.js lines 313-318:
ignorePatterns && !ignorePatterns.some(p => minimatch(asset, p)).  An
absent ignore list is falsy, so no asset is admitted; a present list
admits an asset exactly when none of its patterns matches. -/
def ignoreAllows (ignoreArg : Option (List String))
    (matcher : String → String → Bool) (name : String) : Bool :=
  match ignoreArg with
  | some pats => !(pats.any fun p => matcher name p)
  | none => false

/-- The asset loop of the handler (cli.js lines 306-324), producing the
license side writes and the asset archive appends in iteration order.  An
asset strictly equal to the CLI --license value is written to the side
directory and skipped; otherwise it is appended exactly when the literal
admission condition holds. -/
def assetOpsLoop (licenseArg : Option String) (ignoreArg : Option (List String))
    (matcher : String → String → Bool) (sideDir : String) :
    List (String × Asset) → List (String × AssetSource) × List ArchiveOp
  | [] => ([], [])
  | (name, a) :: rest =>
    let tailRes := assetOpsLoop licenseArg ignoreArg matcher sideDir rest
    if licenseArg = some name then
      ((joinPath sideDir name, a.source) :: tailRes.1, tailRes.2)
    else if ignoreAllows ignoreArg matcher name then
      (tailRes.1, .appendAsset name a.source a.permissions :: tailRes.2)
    else
      tailRes

/-- The outputs of one archive-assembly pass. -/
structure AssembleResult where
  zipTarget : String
  sideDir : String
  mapWrite : Option (String × String)
  licenseWrites : List (String × AssetSource)
  archiveOps : List ArchiveOp
  level : Nat
deriving Repr, DecidableEq

/-- The archive phase of handler (cli.js lines 283-331).  The zip sink is
opened at outDir || "dist.zip" using the outDir value at handler entry;
then line 290 reassigns outDir to resolve("dist") — dist relative to the
current working directory — in run and build mode alike, and every side
file (the source map, named with the literal "index" regardless of the
configured filename, and any license asset) is written under it.  The main
code entry is appended first, then the surviving assets, then the symlinks. -/
def assemble (args : HandlerArgs) (br : BuildResult) (ext : String)
    (matcher : String → String → Bool) : AssembleResult :=
  let zipTarget := match args.outArg with
    | some d => if d = "" then "dist.zip" else d
    | none => "dist.zip"
  let sideDir := joinPath args.cwd "dist"
  let mainName := outFileNameOf args.filenameArg ++ ext
  let mainMode := if hasShebang br.code then 0o777 else 0o666
  let assetRes := assetOpsLoop args.licenseArg args.ignoreArg matcher sideDir br.assets
  { zipTarget := zipTarget
    sideDir := sideDir
    mapWrite := br.map.map fun m => (joinPath sideDir ("index" ++ ext ++ ".map"), m)
    licenseWrites := assetRes.1
    archiveOps := .appendCode mainName mainMode ::
      (assetRes.2 ++ br.symlinks.map fun e => .symlinkOp e.1 e.2)
    level := compressionLevel args.compressionArg }

/-- Whether some asset append with the given entry name is in the archive
trace. -/
def AssembleResult.archivesName (r : AssembleResult) (name : String) : Bool :=
  r.archiveOps.any fun op =>
    match op with
    | .appendAsset n _ _ => n = name
    | _ => false

/-- Whether the side directory received a plain file for the given asset
name through the license exemption. -/
def AssembleResult.licenseWritesName (r : AssembleResult) (name : String) : Bool :=
  r.licenseWrites.any fun e => e.1 = joinPath r.sideDir name

/-- The license value effective after the CLI override (cli.js lines
268-271): the CLI flag when given, else whatever the resolved config holds. -/
def effectiveConfigLicense (cliLicense cfgLicense : Option String) : Option String :=
  match cliLicense with
  | some s => some s
  | none => cfgLicense

/-! ## Run-mode termination (cli.js lines 373-384 and 42-50)

The promise returned in run mode installs the function exit as the child
exit listener (ps.on), the SIGTERM listener and the SIGINT listener.  The
state below records the promise settlement (first settle wins, as for a
JavaScript promise), how many times the recursive directory removal ran,
and which of the deregisterable listeners are still attached; the child
exit listener is attached with ps.on and never removed.  Event arrival is
a fold over a trace of events. -/

/-- The value Node passes to the exit listener: the child exit code (an
integer, or null when the child was killed by a signal) for the child exit
event, or the signal name string for a process signal listener. -/
inductive ExitArg where
  | num (n : Int)
  | null
  | sig (s : String)
deriving Repr, DecidableEq

/-- The rejection object {silent: true, exitCode: code} built on cli.js
line 377. -/
structure RunErrObj where
  silent : Bool
  exitCode : ExitArg
deriving Repr, DecidableEq

/-- Promise settlement of the run operation. -/
inductive Settled where
  | resolved
  | rejected (e : RunErrObj)
deriving Repr, DecidableEq

/-- The settlement attempted by one invocation of exit (cli.js lines
376-377): resolve exactly on the strict equality code === 0, otherwise
reject with a silent error carrying the received value. -/
def settleOf (arg : ExitArg) : Settled :=
  if arg = .num 0 then .resolved else .rejected { silent := true, exitCode := arg }

/-- The observable state of the run promise and its listeners. -/
structure RunPromise where
  settled : Option Settled
  cleanups : Nat
  sigterm : Bool
  sigint : Bool
deriving Repr, DecidableEq

/-- One invocation of the exit function (cli.js lines 374-380): rimraf the
output directory, attempt to settle (only the first settlement of a promise
takes effect), then deregister the SIGTERM and SIGINT listeners.  The child
exit listener is not deregistered anywhere. -/
def exitHandler (s : RunPromise) (arg : ExitArg) : RunPromise :=
  { settled := match s.settled with
      | some x => some x
      | none => some (settleOf arg)
    cleanups := s.cleanups + 1
    sigterm := false
    sigint := false }

/-- An event that can invoke the exit function. -/
inductive RunEvent where
  | childExit (arg : ExitArg)
  | sigTERM
  | sigINT
deriving Repr, DecidableEq

/-- True for a child exit event. -/
def RunEvent.isChildExit : RunEvent → Bool
  | .childExit _ => true
  | _ => false

/-- Delivery of one event: the child exit listener is always attached; a
signal invokes exit only while its listener is still attached. -/
def runStep (s : RunPromise) (e : RunEvent) : RunPromise :=
  match e with
  | .childExit arg => exitHandler s arg
  | .sigTERM => if s.sigterm then exitHandler s (.sig "SIGTERM") else s
  | .sigINT => if s.sigint then exitHandler s (.sig "SIGINT") else s

/-- The state right after the promise executor installed all three
listeners (cli.js lines 381-383). -/
def runInit : RunPromise :=
  { settled := none, cleanups := 0, sigterm := true, sigint := true }

/-- The state after a trace of events. -/
def runTrace (es : List RunEvent) : RunPromise := es.foldl runStep runInit

/-- The settlement produced when the given event fires first (all
listeners attached). -/
def firstOutcome : RunEvent → Settled
  | .childExit arg => settleOf arg
  | .sigTERM => settleOf (.sig "SIGTERM")
  | .sigINT => settleOf (.sig "SIGINT")

/-- The top-level rejection handler (cli.js lines 47-49) prints the error
only when it is not tagged silent. -/
def topLevelPrints (e : RunErrObj) : Bool := !e.silent

/-- Whether the top level re-prints the settled outcome of a run state. -/
def settledPrinted (s : RunPromise) : Bool :=
  match s.settled with
  | some (.rejected e) => topLevelPrints e
  | _ => false

/-! ## Flag parsing (cli.js lines 170-194)

cli.js calls the arg package (the external flag-schema-to-typed-map
collaborator) with a non-permissive schema of six options and four
aliases.  The model below reproduces the arg version 4 parser for this
schema: tokens shorter than two characters and tokens not starting with a
dash are positional; a literal -- sends the remainder to the positionals
and stops; a dash token is separated into itself (when long or exactly two
characters) or into its clustered single-character flags; a long option is
split at its first =; aliases are resolved; an unknown option throws the
unknown-or-unexpected-option error; a value-taking option consumes the
following token unless that token is absent or is dash-led and longer than
one character, in which case it throws the option-requires-argument error
(the numeric exception in arg applies only to Number and BigInt typed
flags, and this schema has none).  runCmd re-throws any parse error whose
message lacks "Unknown or unexpected option" (so it exits with the default
code 1) and wraps the unknown-option error in a usage error with exit
code 2. -/

/-- The kind of a schema option after alias resolution. -/
inductive OptKind where
  | strOne
  | strMany
  | flag
deriving Repr, DecidableEq

/-- The alias table of the schema (cli.js lines 174-185). -/
def resolveAlias (s : String) : String :=
  if s = "-i" then "--ignore"
  else if s = "-o" then "--out"
  else if s = "-f" then "--filename"
  else if s = "-q" then "--quiet"
  else s

/-- The option table of the schema. -/
def optKind (s : String) : Option OptKind :=
  if s = "--ignore" then some .strMany
  else if s = "--out" then some .strOne
  else if s = "--filename" then some .strOne
  else if s = "--license" then some .strOne
  else if s = "--stats-out" then some .strOne
  else if s = "--quiet" then some .flag
  else none

/-- The typed result of a successful parse.  The schema declares no
--watch, --config or --compression key, so the result has no field for
them: the code paths guarded by args["--watch"], args["--config"] and
args["--compression"] always read undefined. -/
structure ParsedArgs where
  ignore : Option (List String) := none
  out : Option String := none
  filename : Option String := none
  license : Option String := none
  statsOut : Option String := none
  quiet : Option Bool := none
  pos : List String := []
deriving Repr, DecidableEq

/-- Applying a value to a value-taking option: [String] collects repeats,
String keeps the last value. -/
def setOptValue (a : ParsedArgs) (name v : String) : ParsedArgs :=
  if name = "--ignore" then { a with ignore := some ((a.ignore.getD []) ++ [v]) }
  else if name = "--out" then { a with out := some v }
  else if name = "--filename" then { a with filename := some v }
  else if name = "--license" then { a with license := some v }
  else if name = "--stats-out" then { a with statsOut := some v }
  else a

/-- Applying a Boolean flag. -/
def setFlagTrue (a : ParsedArgs) (name : String) : ParsedArgs :=
  if name = "--quiet" then { a with quiet := some true } else a

/-- The character of a token at an index, if any. -/
def charAt? (s : String) (i : Nat) : Option Char := s.data.get? i

/-- Separation of a dash token (arg: a long token or an exactly-two
character token stands alone; otherwise each character after the dash
becomes its own short flag). -/
def separate (t : String) : List String :=
  if charAt? t 1 = some '-' ∨ t.length = 2 then [t]
  else (t.data.drop 1).map fun c => String.mk ['-', c]

/-- Splitting a character list at its first =, keeping the remainder. -/
def splitAtEq : List Char → List Char × Option (List Char)
  | [] => ([], none)
  | c :: cs =>
    if c = '=' then ([], some cs)
    else
      let r := splitAtEq cs
      (c :: r.1, r.2)

/-- The name/value split of one separated argument: a long option is split
at its first =, a short one is not. -/
def splitEqArg (arg : String) : String × Option String :=
  if charAt? arg 1 = some '-' then
    let r := splitAtEq arg.data
    (String.mk r.1, r.2.map String.mk)
  else (arg, none)

/-- The two parse exceptions distinguished by runCmd: only the message of
the unknown-option error contains "Unknown or unexpected option". -/
inductive ArgErr where
  | unknownOption (name : String)
  | missingArg (name : String)
deriving Repr, DecidableEq

/-- Outcome of the arg call. -/
inductive ParseOutcome where
  | err (e : ArgErr)
  | parsed (a : ParsedArgs)
deriving Repr, DecidableEq

/-- True for a successful parse. -/
def ParseOutcome.isParsed : ParseOutcome → Bool
  | .parsed _ => true
  | _ => false

/-- The process exit code produced when the arg call throws (cli.js lines
191-194 and 47-50): the unknown-option message is wrapped by nccError with
exit code 2; any other parse error is re-thrown and the top-level handler
exits with e.exitCode || 1, and arg errors carry no exitCode. -/
def parseFailExitCode : ArgErr → Nat
  | .unknownOption _ => 2
  | .missingArg _ => 1

/-- Processing of the separated arguments of one dash token.  rest is the
token stream after the dash token; the Bool of a successful result records
whether the value of the last separated argument was consumed from rest.
A value-taking option that is not last in its cluster throws; a value-taking
option without an inline = value consumes the next token only when that
token exists and is not dash-led with length above one, else it throws the
option-requires-argument error. -/
def procSep (acc : ParsedArgs) (rest : List String) :
    List String → Except ArgErr (ParsedArgs × Bool)
  | [] => .ok (acc, false)
  | arg :: more =>
    let nv := splitEqArg arg
    let name := resolveAlias nv.1
    match optKind name with
    | none => .error (.unknownOption nv.1)
    | some .flag => procSep (setFlagTrue acc name) rest more
    | some _ =>
      if more ≠ [] then .error (.missingArg nv.1)
      else
        match nv.2 with
        | some v => .ok (setOptValue acc name v, false)
        | none =>
          match rest with
          | [] => .error (.missingArg nv.1)
          | v :: _ =>
            if v.length > 1 ∧ charAt? v 0 = some '-' then .error (.missingArg nv.1)
            else .ok (setOptValue acc name v, true)

/-- The shape of one token as classified by the arg main loop. -/
inductive TokenClass where
  | positional
  | ddash
  | optionTok (sep : List String)
deriving Repr, DecidableEq

/-- Classification of a token: shorter than two characters or not dash-led
means positional, a literal -- terminates parsing, otherwise the token is
separated into its option arguments. -/
def classify (t : String) : TokenClass :=
  if t.length < 2 then .positional
  else if t = "--" then .ddash
  else if charAt? t 0 = some '-' then .optionTok (separate t)
  else .positional

/-- The main parse loop of arg over the token stream. -/
def parseLoop (acc : ParsedArgs) : List String → ParseOutcome
  | [] => .parsed acc
  | t :: rest =>
    match classify t with
    | .positional => parseLoop { acc with pos := acc.pos ++ [t] } rest
    | .ddash => .parsed { acc with pos := acc.pos ++ rest }
    | .optionTok sep =>
      match procSep acc rest sep with
      | .error e => .err e
      | .ok (acc', consumed) =>
        parseLoop acc' (if consumed then rest.tail else rest)
  termination_by l => l.length
  decreasing_by
    · simp
    · split
      · simp only [List.length_cons, List.length_tail]
        omega
      · simp

/-- The arg call of runCmd on a full argument vector. -/
def parseArgs (argv : List String) : ParseOutcome := parseLoop {} argv

/-- The exit code of the invocation when flag parsing fails, none when it
succeeds. -/
def parsePhaseExit (argv : List String) : Option Nat :=
  match parseArgs argv with
  | .err e => some (parseFailExitCode e)
  | .parsed _ => none

/-- The flags C10 is about: absent from the schema. -/
def badFlags : List String := ["--watch", "--config", "-c", "--compression"]

/-! ## Row-order relations for the summary claims -/

/-- The relation that actually holds between any two rows of the summary
output, in order of appearance: asset rows are nondecreasing by size;
every asset row before the code row has size at most codeSize and every
one after it has size above codeSize; the analogous bracketing holds for
the map row only when its rounded size is nonzero — a present map whose
rounded size is zero is never interleaved (the truthiness test on cli.js
line 143) and is emitted after everything else. -/
def interleaveRel (cs ms : Nat) : Row → Row → Prop
  | .assetRow _ s, .assetRow _ t => s ≤ t
  | .assetRow _ s, .indexRow _ => s ≤ cs
  | .indexRow _, .assetRow _ t => cs < t
  | .assetRow _ s, .mapRow _ => ms ≠ 0 → s ≤ ms
  | .mapRow _, .assetRow _ t => ms ≠ 0 ∧ ms < t
  | .mapRow _, .indexRow _ => ms ≠ 0
  | _, _ => True

instance (cs ms : Nat) : DecidableRel (interleaveRel cs ms) := fun a b =>
  match a, b with
  | .assetRow _ s, .assetRow _ t => inferInstanceAs (Decidable (s ≤ t))
  | .assetRow _ s, .indexRow _ => inferInstanceAs (Decidable (s ≤ cs))
  | .indexRow _, .assetRow _ t => inferInstanceAs (Decidable (cs < t))
  | .assetRow _ s, .mapRow _ => inferInstanceAs (Decidable (ms ≠ 0 → s ≤ ms))
  | .mapRow _, .assetRow _ t => inferInstanceAs (Decidable (ms ≠ 0 ∧ ms < t))
  | .mapRow _, .indexRow _ => inferInstanceAs (Decidable (ms ≠ 0))
  | .indexRow _, .indexRow _ => inferInstanceAs (Decidable True)
  | .indexRow _, .mapRow _ => inferInstanceAs (Decidable True)
  | .mapRow _, .mapRow _ => inferInstanceAs (Decidable True)

/-- The between-row relation claim C8 asserts, stated in its words: the
code row and the map row each sit immediately before the first asset row
strictly larger than them, so an asset row before the code (map) row has
size at most codeSize (mapSize), and one after it has size above codeSize
(mapSize), with no exception for a zero-size map row. -/
def specInterleaveRel (cs ms : Nat) : Row → Row → Prop
  | .assetRow _ s, .assetRow _ t => s ≤ t
  | .assetRow _ s, .indexRow _ => s ≤ cs
  | .indexRow _, .assetRow _ t => cs < t
  | .assetRow _ s, .mapRow _ => s ≤ ms
  | .mapRow _, .assetRow _ t => ms < t
  | _, _ => True

instance (cs ms : Nat) : DecidableRel (specInterleaveRel cs ms) := fun a b =>
  match a, b with
  | .assetRow _ s, .assetRow _ t => inferInstanceAs (Decidable (s ≤ t))
  | .assetRow _ s, .indexRow _ => inferInstanceAs (Decidable (s ≤ cs))
  | .indexRow _, .assetRow _ t => inferInstanceAs (Decidable (cs < t))
  | .assetRow _ s, .mapRow _ => inferInstanceAs (Decidable (s ≤ ms))
  | .mapRow _, .assetRow _ t => inferInstanceAs (Decidable (ms < t))
  | .indexRow _, .indexRow _ => inferInstanceAs (Decidable True)
  | .indexRow _, .mapRow _ => inferInstanceAs (Decidable True)
  | .mapRow _, .indexRow _ => inferInstanceAs (Decidable True)
  | .mapRow _, .mapRow _ => inferInstanceAs (Decidable True)

/-! ## Helper lemmas -/

theorem checkPkg_isOk (env : ConfigEnv) : ∃ c, checkPkg env = ConfigResult.ok c := by
  unfold checkPkg
  repeat' split
  all_goals exact ⟨_, rfl⟩

theorem joinPath_right_inj {d a b : String} (h : joinPath d a = joinPath d b) : a = b := by
  unfold joinPath at h
  have hd : (d ++ "/").data ++ a.data = (d ++ "/").data ++ b.data := by
    have h2 := congrArg String.data h
    simpa [String.data_append] using h2
  have h3 : a.data = b.data := List.append_cancel_left hd
  cases a
  cases b
  exact congrArg String.mk h3

theorem assetOpsLoop_ops_mem (L : Option String) (I : Option (List String))
    (m : String → String → Bool) (d : String) (assets : List (String × Asset))
    (op : ArchiveOp) :
    op ∈ (assetOpsLoop L I m d assets).2 ↔
      ∃ name a, (name, a) ∈ assets ∧ op = .appendAsset name a.source a.permissions ∧
        L ≠ some name ∧ ignoreAllows I m name = true := by
  induction assets with
  | nil => simp [assetOpsLoop]
  | cons hd tl ih =>
    obtain ⟨name, a⟩ := hd
    simp only [assetOpsLoop, List.mem_cons]
    split
    · rename_i hlic
      rw [ih]
      constructor
      · rintro ⟨n, b, hm, hop, hL, hI⟩
        exact ⟨n, b, Or.inr hm, hop, hL, hI⟩
      · rintro ⟨n, b, heq | hm2, hop, hL, hI⟩
        · injection heq with h1 h2
          subst h1
          exact absurd hlic hL
        · exact ⟨n, b, hm2, hop, hL, hI⟩
    · rename_i hlic
      split
      · rename_i hall
        simp only [List.mem_cons]
        rw [ih]
        constructor
        · rintro (rfl | ⟨n, b, hm, hop, hL, hI⟩)
          · exact ⟨name, a, Or.inl rfl, rfl, hlic, hall⟩
          · exact ⟨n, b, Or.inr hm, hop, hL, hI⟩
        · rintro ⟨n, b, heq | hm2, hop, hL, hI⟩
          · injection heq with h1 h2
            subst h1
            subst h2
            exact Or.inl hop
          · exact Or.inr ⟨n, b, hm2, hop, hL, hI⟩
      · rename_i hall
        rw [ih]
        constructor
        · rintro ⟨n, b, hm, hop, hL, hI⟩
          exact ⟨n, b, Or.inr hm, hop, hL, hI⟩
        · rintro ⟨n, b, heq | hm2, hop, hL, hI⟩
          · injection heq with h1 h2
            subst h1
            subst h2
            exact absurd hI hall
          · exact ⟨n, b, hm2, hop, hL, hI⟩

theorem assetOpsLoop_lw_mem (L : Option String) (I : Option (List String))
    (m : String → String → Bool) (d : String) (assets : List (String × Asset))
    (e : String × AssetSource) :
    e ∈ (assetOpsLoop L I m d assets).1 ↔
      ∃ name a, (name, a) ∈ assets ∧ e = (joinPath d name, a.source) ∧ L = some name := by
  induction assets with
  | nil => simp [assetOpsLoop]
  | cons hd tl ih =>
    obtain ⟨name, a⟩ := hd
    simp only [assetOpsLoop, List.mem_cons]
    split
    · rename_i hlic
      simp only [List.mem_cons]
      rw [ih]
      constructor
      · rintro (rfl | ⟨n, b, hm, hop, hL⟩)
        · exact ⟨name, a, Or.inl rfl, rfl, hlic⟩
        · exact ⟨n, b, Or.inr hm, hop, hL⟩
      · rintro ⟨n, b, heq | hm2, hop, hL⟩
        · injection heq with h1 h2
          subst h1
          subst h2
          exact Or.inl hop
        · exact Or.inr ⟨n, b, hm2, hop, hL⟩
    · rename_i hlic
      have htail : (e ∈ (if ignoreAllows I m name then
          ((assetOpsLoop L I m d tl).1, ArchiveOp.appendAsset name a.source
            a.permissions :: (assetOpsLoop L I m d tl).2)
          else assetOpsLoop L I m d tl).1 ↔ e ∈ (assetOpsLoop L I m d tl).1) := by
        split <;> rfl
      rw [htail, ih]
      constructor
      · rintro ⟨n, b, hm, hop, hL⟩
        exact ⟨n, b, Or.inr hm, hop, hL⟩
      · rintro ⟨n, b, heq | hm2, hop, hL⟩
        · injection heq with h1 h2
          subst h1
          exact absurd hL hlic
        · exact ⟨n, b, hm2, hop, hL⟩

theorem assetOpsLoop_no_code (L : Option String) (I : Option (List String))
    (m : String → String → Bool) (d : String) (assets : List (String × Asset)) :
    ∀ op ∈ (assetOpsLoop L I m d assets).2, op.isCode = false := by
  intro op hop
  rw [assetOpsLoop_ops_mem] at hop
  obtain ⟨n, b, _, rfl, _, _⟩ := hop
  rfl

theorem runSteps_after_settle (es : List RunEvent) (s : RunPromise) (x : Settled)
    (hset : s.settled = some x) (ht : s.sigterm = false) (hi : s.sigint = false) :
    (es.foldl runStep s).settled = some x ∧
    (es.foldl runStep s).cleanups = s.cleanups + es.countP RunEvent.isChildExit ∧
    (es.foldl runStep s).sigterm = false ∧ (es.foldl runStep s).sigint = false := by
  induction es generalizing s with
  | nil => simp [hset, ht, hi]
  | cons e rest ih =>
    cases e with
    | childExit arg =>
      have h2 := ih (exitHandler s arg) (by simp [exitHandler, hset]) rfl rfl
      simp only [List.foldl_cons, runStep] at h2 ⊢
      refine ⟨h2.1, ?_, h2.2.2⟩
      rw [h2.2.1]
      simp [exitHandler, List.countP_cons, RunEvent.isChildExit]
      omega
    | sigTERM =>
      have h2 := ih s hset ht hi
      simp only [List.foldl_cons, runStep, ht, Bool.false_eq_true, if_false] at h2 ⊢
      refine ⟨h2.1, ?_, h2.2.2⟩
      rw [h2.2.1]
      simp [List.countP_cons, RunEvent.isChildExit]
    | sigINT =>
      have h2 := ih s hset ht hi
      simp only [List.foldl_cons, runStep, hi, Bool.false_eq_true, if_false] at h2 ⊢
      refine ⟨h2.1, ?_, h2.2.2⟩
      rw [h2.2.1]
      simp [List.countP_cons, RunEvent.isChildExit]

theorem firstOutcome_silent (e : RunEvent) (er : RunErrObj)
    (h : firstOutcome e = .rejected er) : topLevelPrints er = false := by
  have hs : ∀ arg, settleOf arg = .rejected er → topLevelPrints er = false := by
    intro arg harg
    unfold settleOf at harg
    split at harg
    · exact absurd harg (by simp)
    · injection harg with h2
      rw [← h2]
      rfl
  cases e with
  | childExit arg => exact hs arg h
  | sigTERM => exact hs (.sig "SIGTERM") h
  | sigINT => exact hs (.sig "SIGINT") h

theorem assemble_archiveOps (args : HandlerArgs) (br : BuildResult) (ext : String)
    (matcher : String → String → Bool) :
    (assemble args br ext matcher).archiveOps =
      ArchiveOp.appendCode (outFileNameOf args.filenameArg ++ ext)
        (if hasShebang br.code then 0o777 else 0o666) ::
      ((assetOpsLoop args.licenseArg args.ignoreArg matcher (joinPath args.cwd "dist")
          br.assets).2 ++ br.symlinks.map fun e => ArchiveOp.symlinkOp e.1 e.2) := rfl

theorem assemble_licenseWrites (args : HandlerArgs) (br : BuildResult) (ext : String)
    (matcher : String → String → Bool) :
    (assemble args br ext matcher).licenseWrites =
      (assetOpsLoop args.licenseArg args.ignoreArg matcher (joinPath args.cwd "dist")
        br.assets).1 := rfl

theorem assemble_sideDir (args : HandlerArgs) (br : BuildResult) (ext : String)
    (matcher : String → String → Bool) :
    (assemble args br ext matcher).sideDir = joinPath args.cwd "dist" := rfl

theorem assemble_mapWrite (args : HandlerArgs) (br : BuildResult) (ext : String)
    (matcher : String → String → Bool) :
    (assemble args br ext matcher).mapWrite =
      br.map.map fun m =>
        (joinPath (joinPath args.cwd "dist") ("index" ++ ext ++ ".map"), m) := rfl

/-! ## Claim theorems -/

/-- Claim C5, counterexample: with a non-existent cache directory the size
subcommand writes the literal "0MB", not "0.00MB" as the claim states. -/
theorem C5_counterexample :
    cacheSizeOutput none ≠ "0.00MB\n" ∧ cacheSizeOutput none ≠ "0.00MB" := by
  decide

/-- Claim C5 (amended): when the cache directory does not exist, the size
subcommand reports exactly "0MB" (followed by a newline), and the clean
subcommand completes without throwing. -/
theorem C5_theorem :
    cacheSizeOutput none = "0MB\n" ∧ cacheClean none = Except.ok none := by
  constructor <;> rfl

/-- Claim C4, counterexample: with no explicit config path, a discovered
ncc.config.json that cannot be parsed does not throw a parse error — the
resolver silently falls through and returns the empty mapping. -/
theorem C4_counterexample :
    getConfig { explicitFile := .missing, nccConfigJson := .parseError,
                packageJson := .missing } none = .ok emptyConfig ∧
    (getConfig { explicitFile := .missing, nccConfigJson := .parseError,
                 packageJson := .missing } none).isParseErr = false := by
  constructor <;> rfl

/-- Claim C4 (amended): the config resolver never throws when no explicit
config path is given — in particular a discovered ncc.config.json or
package.json that cannot be parsed is silently skipped (the resolver falls
through to the next source and ultimately the empty mapping).  With an
explicit path it throws the not-found error when the file is missing, the
parse error when it cannot be parsed, and returns the parsed value
otherwise. -/
theorem C4_theorem (env : ConfigEnv) (p : String) :
    (∃ c, getConfig env none = ConfigResult.ok c) ∧
    (env.explicitFile = Lookup.missing → getConfig env (some p) = .notFoundError) ∧
    (env.explicitFile = Lookup.parseError → getConfig env (some p) = .parseErrorE) ∧
    (∀ c, env.explicitFile = Lookup.found c → getConfig env (some p) = .ok c) ∧
    (env.nccConfigJson = Lookup.parseError → getConfig env none = checkPkg env) := by
  refine ⟨?_, fun h => by simp [getConfig, h], fun h => by simp [getConfig, h],
    fun c h => by simp [getConfig, h], fun h => by simp [getConfig, h]⟩
  unfold getConfig
  cases hj : env.nccConfigJson with
  | found c =>
    by_cases ht : c.truthy
    · exact ⟨c, by simp [ht]⟩
    · simpa [ht] using checkPkg_isOk env
  | missing => exact checkPkg_isOk env
  | parseError => exact checkPkg_isOk env

/-- Claim C4, witness: instantiating the amended theorem at a concrete
environment whose explicit config file is missing. -/
theorem C4_witness :
    getConfig { explicitFile := .missing, nccConfigJson := .missing,
                packageJson := .missing } (some "ncc.config.json") = .notFoundError :=
  (C4_theorem { explicitFile := .missing, nccConfigJson := .missing,
                packageJson := .missing } "ncc.config.json").2.1 rfl

/-- Claim C9, counterexample: the child-exit listener is never
deregistered, so when SIGTERM fires first and the child subsequently
exits, the recursive directory removal runs twice — refuting the claim
that cleanup never runs twice. -/
theorem C9_counterexample :
    ¬ (runTrace [RunEvent.sigTERM, RunEvent.childExit (ExitArg.num 0)]).cleanups ≤ 1 := by
  decide

/-- Claim C9 (amended): whichever of child exit, SIGTERM or SIGINT fires
first performs the recursive directory removal and determines the single
settlement of the run operation — resolve exactly when the child exited
with code 0, otherwise a rejection with a silent-tagged error (carrying the
child's exit code on a child exit, the signal name on a signal) that the
top level does not re-print — and the SIGTERM and SIGINT listeners are
deregistered after the first firing.  The child-exit listener, however, is
never deregistered: cleanup runs once for the first event and once more
for every later child-exit event (so a child exit after a signal repeats
the cleanup), while later signals are ignored and the settlement never
changes. -/
theorem C9_theorem (e : RunEvent) (es : List RunEvent) :
    (runTrace (e :: es)).settled = some (firstOutcome e) ∧
    (runTrace (e :: es)).cleanups = 1 + es.countP RunEvent.isChildExit ∧
    (runTrace (e :: es)).sigterm = false ∧
    (runTrace (e :: es)).sigint = false ∧
    settledPrinted (runTrace (e :: es)) = false := by
  have hstep : runStep runInit e =
      { settled := some (firstOutcome e), cleanups := 1, sigterm := false, sigint := false } := by
    cases e <;> rfl
  have hmain := runSteps_after_settle es (runStep runInit e) (firstOutcome e)
    (by rw [hstep]) (by rw [hstep]) (by rw [hstep])
  have hfold : runTrace (e :: es) = es.foldl runStep (runStep runInit e) := rfl
  rw [hfold]
  refine ⟨hmain.1, ?_, hmain.2.2.1, hmain.2.2.2, ?_⟩
  · rw [hmain.2.1, hstep]
  · unfold settledPrinted
    rw [hmain.1]
    cases ho : firstOutcome e with
    | resolved => rfl
    | rejected er => exact firstOutcome_silent e er ho

/-- Claim C7: the main code archive entry is the first operation submitted
to the archiver, named outFileName plus ext where outFileName defaults to
"index" and ext is ".cjs" exactly when the resolved build file ends with
".cjs" (else ".js"); its mode is 0o777 when the code begins with a shebang
line and 0o666 otherwise; and it is the only main-code append in the whole
archive trace. -/
theorem C7_theorem (args : HandlerArgs) (br : BuildResult) (buildFile : String)
    (matcher : String → String → Bool) :
    (assemble args br (extOf buildFile) matcher).archiveOps.countP ArchiveOp.isCode = 1 ∧
    (assemble args br (extOf buildFile) matcher).archiveOps.head? =
      some (ArchiveOp.appendCode (outFileNameOf args.filenameArg ++ extOf buildFile)
        (if hasShebang br.code then 0o777 else 0o666)) ∧
    (endsWithStr buildFile ".cjs" = true → extOf buildFile = ".cjs") ∧
    (endsWithStr buildFile ".cjs" = false → extOf buildFile = ".js") ∧
    outFileNameOf none = "index" := by
  refine ⟨?_, rfl, fun h => by simp [extOf, h], fun h => by simp [extOf, h], rfl⟩
  rw [assemble_archiveOps, List.countP_cons, List.countP_append]
  have h1 : (assetOpsLoop args.licenseArg args.ignoreArg matcher (joinPath args.cwd "dist")
      br.assets).2.countP ArchiveOp.isCode = 0 := by
    rw [List.countP_eq_zero]
    intro op hop
    simp [assetOpsLoop_no_code _ _ _ _ _ op hop]
  have h2 : (br.symlinks.map fun e => ArchiveOp.symlinkOp e.1 e.2).countP
      ArchiveOp.isCode = 0 := by
    rw [List.countP_eq_zero]
    intro op hop
    obtain ⟨e2, _, rfl⟩ := List.mem_map.mp hop
    simp [ArchiveOp.isCode]
  rw [h1, h2]
  rfl

/-- Claim C7, witness: instantiating the extension clauses at concrete
build files. -/
theorem C7_witness :
    extOf "app.cjs" = ".cjs" ∧ extOf "app.js" = ".js" :=
  ⟨(C7_theorem { filenameArg := none, licenseArg := none, ignoreArg := none, outArg := none,
                 run := false, cwd := "/cwd", compressionArg := none }
      { code := "", map := none, assets := [], symlinks := [] } "app.cjs"
      (fun _ _ => false)).2.2.1 (by decide),
   (C7_theorem { filenameArg := none, licenseArg := none, ignoreArg := none, outArg := none,
                 run := false, cwd := "/cwd", compressionArg := none }
      { code := "", map := none, assets := [], symlinks := [] } "app.js"
      (fun _ _ => false)).2.2.2.1 (by decide)⟩

/-- Claim C1, counterexample: with the ignore set absent and no license
configured, the single asset is NOT archived, although the claim states
that with an absent ignore set every non-license asset is archived. -/
theorem C1_counterexample :
    (assemble { filenameArg := none, licenseArg := none, ignoreArg := none, outArg := none,
                run := false, cwd := "/cwd", compressionArg := none }
      { code := "", map := none,
        assets := [("a.txt", { source := .str "x", permissions := none })], symlinks := [] }
      ".js" (fun _ _ => false)).archivesName "a.txt" = false := by
  rfl

/-- Claim C1 (amended): an asset is archived if and only if it is present
in the build result, its name differs from the CLI --license value, and the
ignore set is present with none of its patterns matching; in particular
when the ignore set is absent no asset is archived at all, and when it is
present but empty every non-license asset is archived. -/
theorem C1_theorem (args : HandlerArgs) (br : BuildResult) (ext : String)
    (matcher : String → String → Bool) (name : String) :
    (assemble args br ext matcher).archivesName name = true ↔
      ((∃ a, (name, a) ∈ br.assets) ∧ args.licenseArg ≠ some name ∧
        ignoreAllows args.ignoreArg matcher name = true) := by
  unfold AssembleResult.archivesName
  rw [List.any_eq_true]
  constructor
  · rintro ⟨op, hmem, hP⟩
    rw [assemble_archiveOps] at hmem
    rcases List.mem_cons.mp hmem with rfl | hmem2
    · simp at hP
    · rcases List.mem_append.mp hmem2 with ha | hs
      · rw [assetOpsLoop_ops_mem] at ha
        obtain ⟨n, b, hnb, rfl, hL, hI⟩ := ha
        have hn : n = name := by simpa using hP
        subst hn
        exact ⟨⟨b, hnb⟩, hL, hI⟩
      · obtain ⟨e2, _, rfl⟩ := List.mem_map.mp hs
        simp at hP
  · rintro ⟨⟨a, hmem⟩, hL, hI⟩
    refine ⟨ArchiveOp.appendAsset name a.source a.permissions, ?_, by simp⟩
    rw [assemble_archiveOps]
    exact List.mem_cons_of_mem _ (List.mem_append_left _
      ((assetOpsLoop_ops_mem _ _ _ _ _ _).mpr ⟨name, a, hmem, rfl, hL, hI⟩))

/-- Claim C6, counterexample: a license configured only through the config
file (effective license per the override rule) does not exempt the asset —
the handler compares against the CLI flag only, so the asset is archived
and no side file is written. -/
theorem C6_counterexample :
    effectiveConfigLicense none (some "LICENSE.txt") = some "LICENSE.txt" ∧
    (assemble { filenameArg := none, licenseArg := none, ignoreArg := some ["zz"],
                outArg := none, run := false, cwd := "/cwd", compressionArg := none }
      { code := "", map := none,
        assets := [("LICENSE.txt", { source := .str "L", permissions := none })],
        symlinks := [] } ".js"
      (fun _ _ => false)).licenseWritesName "LICENSE.txt" = false ∧
    (assemble { filenameArg := none, licenseArg := none, ignoreArg := some ["zz"],
                outArg := none, run := false, cwd := "/cwd", compressionArg := none }
      { code := "", map := none,
        assets := [("LICENSE.txt", { source := .str "L", permissions := none })],
        symlinks := [] } ".js"
      (fun _ _ => false)).archivesName "LICENSE.txt" = true := by
  refine ⟨rfl, rfl, rfl⟩

/-- Claim C6 (amended): an asset is written as a plain file into the side
directory exactly when its name equals the license value supplied by CLI
flag (a license taken only from the resolved config file does not exempt
the asset, because the handler compares the asset name against the raw
--license flag); an asset whose name equals the CLI license value is never
appended to the archive. -/
theorem C6_theorem (args : HandlerArgs) (br : BuildResult) (ext : String)
    (matcher : String → String → Bool) (name : String) :
    ((assemble args br ext matcher).licenseWritesName name = true ↔
      (args.licenseArg = some name ∧ ∃ a, (name, a) ∈ br.assets)) ∧
    (args.licenseArg = some name →
      (assemble args br ext matcher).archivesName name = false) := by
  constructor
  · unfold AssembleResult.licenseWritesName
    rw [List.any_eq_true]
    constructor
    · rintro ⟨e, hmem, hP⟩
      rw [assemble_licenseWrites] at hmem
      rw [assetOpsLoop_lw_mem] at hmem
      obtain ⟨n, b, hnb, rfl, hL⟩ := hmem
      have hpath : joinPath (joinPath args.cwd "dist") n =
          joinPath (assemble args br ext matcher).sideDir name := by simpa using hP
      rw [assemble_sideDir] at hpath
      have hn : n = name := joinPath_right_inj hpath
      subst hn
      exact ⟨hL, b, hnb⟩
    · rintro ⟨hL, a, hmem⟩
      refine ⟨(joinPath (joinPath args.cwd "dist") name, a.source), ?_, ?_⟩
      · rw [assemble_licenseWrites]
        exact (assetOpsLoop_lw_mem _ _ _ _ _ _).mpr ⟨name, a, hmem, rfl, hL⟩
      · simp [assemble_sideDir]
  · intro hL
    rw [Bool.eq_false_iff]
    intro hcontra
    unfold AssembleResult.archivesName at hcontra
    rw [List.any_eq_true] at hcontra
    obtain ⟨op, hmem, hP⟩ := hcontra
    rw [assemble_archiveOps] at hmem
    rcases List.mem_cons.mp hmem with rfl | hmem2
    · simp at hP
    · rcases List.mem_append.mp hmem2 with ha | hs
      · rw [assetOpsLoop_ops_mem] at ha
        obtain ⟨n, b, hnb, rfl, hLne, hI⟩ := ha
        have hn : n = name := by simpa using hP
        subst hn
        exact absurd hL hLne
      · obtain ⟨e2, _, rfl⟩ := List.mem_map.mp hs
        simp at hP

/-- Claim C6, witness: a CLI-supplied license name is not archived. -/
theorem C6_witness :
    (assemble { filenameArg := none, licenseArg := some "L", ignoreArg := some ["zz"],
                outArg := none, run := false, cwd := "/cwd", compressionArg := none }
      { code := "", map := none,
        assets := [("L", { source := .str "T", permissions := none })], symlinks := [] }
      ".js" (fun _ _ => false)).archivesName "L" = false :=
  (C6_theorem { filenameArg := none, licenseArg := some "L", ignoreArg := some ["zz"],
                outArg := none, run := false, cwd := "/cwd", compressionArg := none }
    { code := "", map := none,
      assets := [("L", { source := .str "T", permissions := none })], symlinks := [] }
    ".js" (fun _ _ => false) "L").2 rfl

/-- Claim C2, counterexample: in run mode with the configured main
filename "main" and run workspace "/tmp/ws", the source map is written to
"/proj/dist/index.js.map" — neither named after the configured filename nor
placed in the run workspace, contradicting the claim. -/
theorem C2_counterexample :
    (assemble { filenameArg := some "main", licenseArg := none, ignoreArg := none,
                outArg := some "/tmp/ws", run := true, cwd := "/proj", compressionArg := none }
      { code := "", map := some "M", assets := [], symlinks := [] } ".js"
      (fun _ _ => false)).mapWrite = some ("/proj/dist/index.js.map", "M") ∧
    ("/proj/dist/index.js.map" : String) ≠ joinPath "/tmp/ws" ("main" ++ ".js" ++ ".map") := by
  refine ⟨rfl, ?_⟩
  decide

/-- Claim C2 (amended): when a source map is present it is written as a
plain side file — never into the archive, whose operation trace does not
depend on the map — named with the literal stem "index" (not the configured
main filename) as index ext .map, and the side directory is dist relative
to the current working directory in build mode and in run mode alike (the
handler reassigns outDir to resolve of dist before writing side files). -/
theorem C2_theorem (args : HandlerArgs) (br : BuildResult) (ext : String)
    (matcher : String → String → Bool) (m : String) :
    (br.map = some m →
      (assemble args br ext matcher).mapWrite =
        some (joinPath (joinPath args.cwd "dist") ("index" ++ ext ++ ".map"), m)) ∧
    (assemble args { br with map := none } ext matcher).archiveOps =
      (assemble args br ext matcher).archiveOps ∧
    (assemble args br ext matcher).sideDir = joinPath args.cwd "dist" := by
  refine ⟨fun h => ?_, rfl, rfl⟩
  rw [assemble_mapWrite, h]
  rfl

theorem summaryLoop_size_sum (cs ms : Nat) (l : List (String × Nat)) (ip mp : Bool) :
    ((summaryLoop cs ms l ip mp).map Row.size).sum =
      (if ip then cs else 0) + (if mp then ms else 0) + (l.map Prod.snd).sum := by
  induction l generalizing ip mp with
  | nil => cases ip <;> cases mp <;> simp [summaryLoop, Row.size]
  | cons hd tl ih =>
    obtain ⟨a, s⟩ := hd
    simp only [summaryLoop, List.map_append, List.sum_append, List.map_cons, List.sum_cons, ih]
    by_cases h1 : cs < s <;> by_cases h2 : ms = 0 <;> by_cases h3 : ms < s <;>
      cases ip <;> cases mp <;> simp [h1, h2, h3, Row.size] <;> omega

theorem summaryLoop_mem (cs ms : Nat) (l : List (String × Nat)) (ip mp : Bool) (r : Row)
    (hr : r ∈ summaryLoop cs ms l ip mp) :
    (r = Row.indexRow cs ∧ ip = true) ∨ (r = Row.mapRow ms ∧ mp = true) ∨
    (∃ a s, (a, s) ∈ l ∧ r = Row.assetRow a s) := by
  induction l generalizing ip mp with
  | nil =>
    simp only [summaryLoop] at hr
    rcases List.mem_append.mp hr with h | h
    · cases ip
      · simp at h
      · simp at h
        exact Or.inl ⟨h, rfl⟩
    · cases mp
      · simp at h
      · simp at h
        exact Or.inr (Or.inl ⟨h, rfl⟩)
  | cons hd tl ih =>
    obtain ⟨a, s⟩ := hd
    simp only [summaryLoop, List.append_assoc] at hr
    rcases List.mem_append.mp hr with h | h
    · by_cases hc : (ip && decide (cs < s)) = true
      · rw [if_pos hc] at h
        simp at h
        rw [Bool.and_eq_true] at hc
        exact Or.inl ⟨h, hc.1⟩
      · rw [if_neg hc] at h
        simp at h
    · rcases List.mem_append.mp h with h2 | h2
      · by_cases hc : (mp && (decide (ms ≠ 0) && decide (ms < s))) = true
        · rw [if_pos hc] at h2
          simp at h2
          rw [Bool.and_eq_true] at hc
          exact Or.inr (Or.inl ⟨h2, hc.1⟩)
        · rw [if_neg hc] at h2
          simp at h2
      · rcases List.mem_cons.mp h2 with rfl | h3
        · exact Or.inr (Or.inr ⟨a, s, List.mem_cons_self _ _, rfl⟩)
        · rcases ih _ _ h3 with ⟨hre, hip⟩ | ⟨hre, hmp⟩ | ⟨a2, s2, hm, hre⟩
          · rw [Bool.and_eq_true] at hip
            exact Or.inl ⟨hre, hip.1⟩
          · rw [Bool.and_eq_true] at hmp
            exact Or.inr (Or.inl ⟨hre, hmp.1⟩)
          · exact Or.inr (Or.inr ⟨a2, s2, List.mem_cons_of_mem _ hm, hre⟩)

theorem summaryLoop_pairwise (cs ms : Nat) (l : List (String × Nat)) (ip mp : Bool)
    (hs : l.Sorted bySize) :
    (summaryLoop cs ms l ip mp).Pairwise (interleaveRel cs ms) := by
  induction l generalizing ip mp with
  | nil =>
    cases ip <;> cases mp <;> simp only [summaryLoop, List.nil_append, List.append_nil,
      if_true, if_false, List.singleton_append]
    · exact List.Pairwise.nil
    · exact List.pairwise_singleton _ _
    · exact List.pairwise_singleton _ _
    · refine List.Pairwise.cons ?_ (List.pairwise_singleton _ _)
      intro r hr
      rcases List.mem_singleton.mp hr with rfl
      trivial
  | cons hd tl ih =>
    obtain ⟨a, s⟩ := hd
    rw [List.sorted_cons] at hs
    obtain ⟨hall, hstl⟩ := hs
    have hrec := ih (ip && !decide (cs < s)) (mp && !(decide (ms ≠ 0) && decide (ms < s))) hstl
    have hAsset : ∀ r ∈ summaryLoop cs ms tl (ip && !decide (cs < s))
        (mp && !(decide (ms ≠ 0) && decide (ms < s))),
        interleaveRel cs ms (Row.assetRow a s) r := by
      intro r hr
      rcases summaryLoop_mem cs ms tl _ _ r hr with ⟨rfl, hipT⟩ | ⟨rfl, hmpT⟩ |
        ⟨a2, s2, hm, rfl⟩
      · rw [Bool.and_eq_true] at hipT
        have h2 : ¬ cs < s := by simpa using hipT.2
        show s ≤ cs
        omega
      · rw [Bool.and_eq_true] at hmpT
        show ms ≠ 0 → s ≤ ms
        intro hms
        have h2 := hmpT.2
        simp [hms] at h2
        omega
      · show s ≤ s2
        exact hall (a2, s2) hm
    have hPairTail : (Row.assetRow a s :: summaryLoop cs ms tl (ip && !decide (cs < s))
        (mp && !(decide (ms ≠ 0) && decide (ms < s)))).Pairwise (interleaveRel cs ms) :=
      List.Pairwise.cons hAsset hrec
    have hIdxLater : ip = true → cs < s → ∀ r ∈ Row.assetRow a s ::
        summaryLoop cs ms tl (ip && !decide (cs < s))
          (mp && !(decide (ms ≠ 0) && decide (ms < s))),
        interleaveRel cs ms (Row.indexRow cs) r := by
      intro hip hcs r hr
      rcases List.mem_cons.mp hr with rfl | hr2
      · show cs < s
        exact hcs
      · rcases summaryLoop_mem cs ms tl _ _ r hr2 with ⟨rfl, hipT⟩ | ⟨rfl, _⟩ |
          ⟨a2, s2, hm, rfl⟩
        · rw [Bool.and_eq_true] at hipT
          have := hipT.2
          simp [hcs] at this
        · trivial
        · show cs < s2
          have h3 : s ≤ s2 := hall (a2, s2) hm
          omega
    have hMapLater : mp = true → ms ≠ 0 → ms < s → ∀ r ∈ Row.assetRow a s ::
        summaryLoop cs ms tl (ip && !decide (cs < s))
          (mp && !(decide (ms ≠ 0) && decide (ms < s))),
        interleaveRel cs ms (Row.mapRow ms) r := by
      intro hmp hms hlt r hr
      rcases List.mem_cons.mp hr with rfl | hr2
      · show ms ≠ 0 ∧ ms < s
        exact ⟨hms, hlt⟩
      · rcases summaryLoop_mem cs ms tl _ _ r hr2 with ⟨rfl, _⟩ | ⟨rfl, hmpT⟩ |
          ⟨a2, s2, hm, rfl⟩
        · show ms ≠ 0
          exact hms
        · rw [Bool.and_eq_true] at hmpT
          have := hmpT.2
          simp [hms, hlt] at this
        · show ms ≠ 0 ∧ ms < s2
          have h3 : s ≤ s2 := hall (a2, s2) hm
          exact ⟨hms, by omega⟩
    simp only [summaryLoop]
    by_cases hc1 : (ip && decide (cs < s)) = true
    · have hip : ip = true := (Bool.and_eq_true .. ▸ hc1).1
      have hcs : cs < s := by
        have := (Bool.and_eq_true .. ▸ hc1).2
        simpa using this
      by_cases hc2 : (mp && (decide (ms ≠ 0) && decide (ms < s))) = true
      · have hmp : mp = true := (Bool.and_eq_true .. ▸ hc2).1
        have hms : ms ≠ 0 := by
          have := (Bool.and_eq_true .. ▸ (Bool.and_eq_true .. ▸ hc2).2).1
          simpa using this
        have hlt : ms < s := by
          have := (Bool.and_eq_true .. ▸ (Bool.and_eq_true .. ▸ hc2).2).2
          simpa using this
        rw [if_pos hc1, if_pos hc2]
        simp only [List.singleton_append, List.cons_append, List.nil_append]
        refine List.Pairwise.cons ?_ (List.Pairwise.cons (hMapLater hmp hms hlt) hPairTail)
        intro r hr
        rcases List.mem_cons.mp hr with rfl | hr2
        · trivial
        · exact hIdxLater hip hcs r hr2
      · rw [if_pos hc1, if_neg hc2]
        simp only [List.singleton_append, List.cons_append, List.nil_append]
        exact List.Pairwise.cons (hIdxLater hip hcs) hPairTail
    · by_cases hc2 : (mp && (decide (ms ≠ 0) && decide (ms < s))) = true
      · have hmp : mp = true := (Bool.and_eq_true .. ▸ hc2).1
        have hms : ms ≠ 0 := by
          have := (Bool.and_eq_true .. ▸ (Bool.and_eq_true .. ▸ hc2).2).1
          simpa using this
        have hlt : ms < s := by
          have := (Bool.and_eq_true .. ▸ (Bool.and_eq_true .. ▸ hc2).2).2
          simpa using this
        rw [if_neg hc1, if_pos hc2]
        simp only [List.singleton_append, List.cons_append, List.nil_append]
        exact List.Pairwise.cons (hMapLater hmp hms hlt) hPairTail
      · rw [if_neg hc1, if_neg hc2]
        simp only [List.nil_append]
        exact hPairTail

set_option maxRecDepth 4000 in
/-- Claim C3, counterexample: with a one-byte main code (0 kB rounded) and
a 512-byte source map (1 kB rounded), the final-line total is 0 while the
sum of the rendered rows is 1: the map row's size is not included in the
total. -/
theorem C3_counterexample :
    ¬ ((renderSummary "x" (some (String.mk (List.replicate 512 'a'))) []).total =
        (((renderSummary "x" (some (String.mk (List.replicate 512 'a'))) []).rows.map
          Row.size).sum)) := by
  decide

/-- Claim C3 (amended): the final-line total equals the sum of the rounded
sizes of the main code row and of every asset row; the source-map row,
although rendered, is not included — equivalently, the sum of all rendered
row sizes equals the reported total plus the rounded map size. -/
theorem C3_theorem (code : String) (map : Option String) (assets : List (String × Asset)) :
    ((renderSummary code map assets).rows.map Row.size).sum =
      (renderSummary code map assets).total + mapSizeOf map := by
  show ((summaryLoop (codeSizeOf code) (mapSizeOf map)
      (List.insertionSort bySize (assetSizesOf assets)) true map.isSome).map Row.size).sum =
    (codeSizeOf code + ((assetSizesOf assets).map Prod.snd).sum) + mapSizeOf map
  rw [summaryLoop_size_sum]
  have hperm : ((List.insertionSort bySize (assetSizesOf assets)).map Prod.snd).sum
      = ((assetSizesOf assets).map Prod.snd).sum :=
    ((List.perm_insertionSort bySize (assetSizesOf assets)).map Prod.snd).sum_eq
  rw [hperm]
  cases map
  · simp [mapSizeOf]
  · simp [mapSizeOf]
    omega

set_option maxRecDepth 4000 in
/-- Claim C8, counterexample: a present source map of 100 bytes rounds to
0 kB, so the truthiness test on mapSize keeps it out of the interleaving
and it is emitted as the very last row — strictly after a 600-byte (1 kB)
asset that exceeds it, where the claim demands the map row appear
immediately before that asset. -/
theorem C8_counterexample :
    ¬ ((renderSummary "" (some (String.mk (List.replicate 100 'a')))
        [("a", { source := AssetSource.buf (List.replicate 600 0),
                 permissions := none })]).rows.Pairwise
      (specInterleaveRel (codeSizeOf "")
        (mapSizeOf (some (String.mk (List.replicate 100 'a')))))) := by
  decide

/-- Claim C8 (amended): in the rendered row order, asset rows appear in
nondecreasing order of rounded size; every asset row before the code row
has size at most the code size and every asset row after it has size
strictly above it; the same bracketing holds for the map row whenever its
rounded size is nonzero — but a present map whose rounded size is zero is
never interleaved and is always the last row. -/
theorem C8_theorem (code : String) (map : Option String) (assets : List (String × Asset)) :
    (renderSummary code map assets).rows.Pairwise
      (interleaveRel (codeSizeOf code) (mapSizeOf map)) :=
  summaryLoop_pairwise (codeSizeOf code) (mapSizeOf map)
    (List.insertionSort bySize (assetSizesOf assets)) true map.isSome
    (List.sorted_insertionSort bySize (assetSizesOf assets))

theorem badFlags_dash : ∀ b ∈ badFlags, b.length > 1 ∧ charAt? b 0 = some '-' := by
  decide

theorem classify_eq_ddash {t : String} (h : classify t = TokenClass.ddash) : t = "--" := by
  unfold classify at h
  split_ifs at h with h1 h2 h3
  exact h2

theorem parseLoop_badHead (b : String) (hb : b ∈ badFlags) (acc : ParsedArgs)
    (rest : List String) : parseLoop acc (b :: rest) = .err (.unknownOption b) := by
  simp only [badFlags, List.mem_cons, List.not_mem_nil, or_false] at hb
  rcases hb with rfl | rfl | rfl | rfl
  · rw [parseLoop, show classify "--watch" = TokenClass.optionTok ["--watch"] from by decide]
    rfl
  · rw [parseLoop, show classify "--config" = TokenClass.optionTok ["--config"] from by decide]
    rfl
  · rw [parseLoop, show classify "-c" = TokenClass.optionTok ["-c"] from by decide]
    rfl
  · rw [parseLoop,
      show classify "--compression" = TokenClass.optionTok ["--compression"] from by decide]
    rfl

theorem procSep_consumed (sep : List String) (acc : ParsedArgs) (rest : List String)
    (acc2 : ParsedArgs) (h : procSep acc rest sep = .ok (acc2, true)) :
    ∃ v vs, rest = v :: vs ∧ ¬(v.length > 1 ∧ charAt? v 0 = some '-') := by
  induction sep generalizing acc with
  | nil =>
    simp [procSep] at h
  | cons arg more ih =>
    simp only [procSep] at h
    split at h
    · simp at h
    · exact ih _ h
    · split at h
      · simp at h
      · split at h
        · simp at h
        · split at h
          · simp at h
          · rename_i v vs
            split at h
            · simp at h
            · rename_i hcond
              exact ⟨v, vs, rfl, hcond⟩

theorem parseLoop_badMem (n : Nat) : ∀ l : List String, l.length ≤ n → ∀ acc b,
    b ∈ badFlags → b ∈ l → "--" ∉ l → (parseLoop acc l).isParsed = false := by
  induction n with
  | zero =>
    intro l hl acc b _ hmem _
    cases l with
    | nil => simp at hmem
    | cons t rest => simp at hl
  | succ n ih =>
    intro l hl acc b hb hmem hdd
    cases l with
    | nil => simp at hmem
    | cons t rest =>
      by_cases hbt : b = t
      · subst hbt
        rw [parseLoop_badHead b hb]
        rfl
      · have hbrest : b ∈ rest := by
          rcases List.mem_cons.mp hmem with h | h
          · exact absurd h hbt
          · exact h
        have hddrest : "--" ∉ rest := fun hcon => hdd (List.mem_cons_of_mem _ hcon)
        have hlen : rest.length ≤ n := by
          simp only [List.length_cons] at hl
          omega
        rw [parseLoop]
        split
        · exact ih rest hlen _ b hb hbrest hddrest
        · rename_i heq
          have ht := classify_eq_ddash heq
          subst ht
          exact absurd (List.mem_cons_self _ _) hdd
        · split
          · rfl
          · rename_i acc2 consumed heq2
            cases consumed with
            | false =>
              have := ih rest hlen acc2 b hb hbrest hddrest
              simpa using this
            | true =>
              obtain ⟨v, vs, hrest, hcond⟩ := procSep_consumed _ acc rest acc2 heq2
              subst hrest
              have hbv : b ≠ v := by
                rintro rfl
                exact hcond (badFlags_dash b hb)
              have hbvs : b ∈ vs := by
                rcases List.mem_cons.mp hbrest with h | h
                · exact absurd h hbv
                · exact h
              have hddvs : "--" ∉ vs := fun hcon => hddrest (List.mem_cons_of_mem _ hcon)
              have hlen2 : vs.length ≤ n := by
                simp only [List.length_cons] at hl
                omega
              have := ih vs hlen2 acc2 b hb hbvs hddvs
              simpa using this

/-- Claim C10, counterexample: the argument vector ["-o", "--watch"]
contains "--watch" yet does not fail with the exit-2 usage error: the arg
parser consumes "-o" first, sees a dash-led next token, and throws the
option-requires-argument error, whose message is not wrapped by runCmd and
therefore exits with the default code 1. -/
theorem C10_counterexample :
    parsePhaseExit ["-o", "--watch"] = some 1 ∧ (1 : Nat) ≠ 2 := by
  refine ⟨?_, by decide⟩
  have h1 : parseArgs ["-o", "--watch"] = .err (.missingArg "-o") := by
    unfold parseArgs
    rw [parseLoop, show classify "-o" = TokenClass.optionTok ["-o"] from by decide]
    rfl
  unfold parsePhaseExit
  rw [h1]
  rfl

/-- Claim C10 (amended): an argument vector in which --watch, --config,
-c or --compression stands as the leading token fails during flag parsing
with the unknown-option usage error and exit code 2; more generally, any
argument vector containing one of these tokens with no " -- " terminator
present never parses successfully — though the failure is the exit-2
unknown-option error only when the token is reached in option position,
while a token sitting in the value position of a value-taking flag aborts
with a missing-argument error and exit code 1 instead.  Since the schema
declares none of these keys, a successful parse never binds them and the
code paths guarded by args["--watch"], args["--config"] and
args["--compression"] only ever see undefined. -/
theorem C10_theorem :
    (∀ b ∈ badFlags, ∀ rest, parseArgs (b :: rest) = .err (.unknownOption b) ∧
      parsePhaseExit (b :: rest) = some 2) ∧
    (∀ b ∈ badFlags, ∀ argv, b ∈ argv → "--" ∉ argv →
      (parseArgs argv).isParsed = false) := by
  constructor
  · intro b hb rest
    have h := parseLoop_badHead b hb {} rest
    refine ⟨h, ?_⟩
    unfold parsePhaseExit parseArgs
    rw [show parseLoop {} (b :: rest) = ParseOutcome.err (ArgErr.unknownOption b) from h]
    rfl
  · intro b hb argv hmem hdd
    exact parseLoop_badMem argv.length argv le_rfl {} b hb hmem hdd

/-- Claim C10, witness: instantiating the amended theorem at "--watch" as
the leading token and at an argument vector containing "--compression". -/
theorem C10_witness :
    (parseArgs ["--watch"] = .err (.unknownOption "--watch") ∧
      parsePhaseExit ["--watch"] = some 2) ∧
    (parseArgs ["build", "x", "--compression"]).isParsed = false :=
  ⟨C10_theorem.1 "--watch" (by decide) [],
   C10_theorem.2 "--compression" (by decide) ["build", "x", "--compression"]
     (by decide) (by decide)⟩

/-- Claim C2, witness: the map side file of a concrete run-mode build. -/
theorem C2_witness :
    (assemble { filenameArg := some "main", licenseArg := none, ignoreArg := none,
                outArg := some "/tmp/ws", run := true, cwd := "/proj", compressionArg := none }
      { code := "", map := some "M", assets := [], symlinks := [] } ".js"
      (fun _ _ => false)).mapWrite =
      some (joinPath (joinPath "/proj" "dist") ("index" ++ ".js" ++ ".map"), "M") :=
  (C2_theorem { filenameArg := some "main", licenseArg := none, ignoreArg := none,
                outArg := some "/tmp/ws", run := true, cwd := "/proj", compressionArg := none }
    { code := "", map := some "M", assets := [], symlinks := [] } ".js"
    (fun _ _ => false) "M").1 rfl

end NccZip
